import Mathlib

/-!
Shallow embedding of `src/app.py` (a Flask stock-alert bot).

The embedded parts are the ones the specification's claims are about:

* the target data model written by `api_set_target` (lines 559-588),
* target deletion `api_delete_target` (lines 590-608),
* the price fetch and Telegram delivery boundary (lines 611-634), and
* one iteration of the background loop `run_stock_checker` (lines 636-690).

Python dicts (`user_data.targets` and the shelve database) are modelled as
association lists in insertion order.  Prices are modelled as rationals;
the comparisons in the code are `<=` / `>=` on floats and carry over
directly.  `fetch_price_blocking` catches every exception and returns
`None` (lines 618-620), so the price oracle is modelled as a total
function into `Option`; `send_telegram_notification` likewise catches
every exception and its result is never inspected by the caller
(lines 629-634), so the dispatcher is modelled as a total function whose
Boolean outcome is only recorded.
-/

/-- One entry of `user_data.targets[symbol]`: the dict
`{'target': ..., 'trigger_type': ..., 'notified': ...}` written by
`api_set_target` (src/app.py lines 581-585). -/
structure TargetData where
  target : ℚ
  trigger_type : String
  notified : Bool
deriving DecidableEq, Repr

/-- `user_data.targets`: a Python dict from symbol to entry. -/
abbrev Targets := List (String × TargetData)

/-- The shelve database restricted to the fields the checker and the
target API use: user id mapped to that user's targets. -/
abbrev Db := List (String × Targets)

/-- Python dict read `d[k]` / `d.get(k)`: the binding of `k`, if any. -/
def alookup {α : Type} : List (String × α) → String → Option α
  | [], _ => none
  | (k, v) :: rest, s => if k = s then some v else alookup rest s

/-- Python dict write `d[k] = v`: replace the binding of `k` in place, or
append a new binding at the end. -/
def aset {α : Type} : List (String × α) → String → α → List (String × α)
  | [], s, d => [(s, d)]
  | (k, v) :: rest, s, d => if k = s then (s, d) :: rest else (k, v) :: aset rest s d

/-- Python `del d[k]`. -/
def aerase {α : Type} : List (String × α) → String → List (String × α)
  | [], _ => []
  | (k, v) :: rest, s => if k = s then rest else (k, v) :: aerase rest s

/-- The stored target of user `u` for symbol `s`, read through both maps. -/
def dbEntry (db : Db) (u s : String) : Option TargetData :=
  (alookup db u).bind (fun ts => alookup ts s)

/-- Well-formedness that every state reachable through the API has:
Python dict keys are unique, both for the user map and for each user's
targets map. -/
abbrev GoodDb (db : Db) : Prop :=
  (db.map Prod.fst).Nodup ∧ ∀ p ∈ db, (p.2.map Prod.fst).Nodup

/-- Python `str.upper()` as the code applies it to ticker symbols
(lines 563, 594), modelled characterwise. -/
def upper (s : String) : String := String.mk (s.data.map Char.toUpper)

/-- Request body of `POST /api/set_target`.  `symbol` and `trigger_type`
are `none` when the JSON key is absent (the code defaults them with
`data.get`, lines 563-565); `target_price` is `some q` when
`float(target_price)` succeeds and `none` when it raises
(lines 567-570). -/
structure SetTargetRequest where
  symbol : Option String
  target_price : Option ℚ
  trigger_type : Option String

/-- src/app.py lines 559-588, `api_set_target`: uppercase the symbol,
reject the request (HTTP 400, returned here as `none`) when the price
does not parse as a number, and otherwise overwrite the user's entry for
that symbol with a fresh non-notified target.  The user is present in
the database whenever the endpoint runs (`login_required`); the `none`
branch on the user lookup models the `KeyError` that `db[user_id]`
would raise otherwise. -/
def api_set_target (db : Db) (user : String) (req : SetTargetRequest) : Option Db :=
  let symbol := upper (req.symbol.getD "")
  match req.target_price with
  | none => none
  | some target_price =>
    match alookup db user with
    | none => none
    | some ts =>
      some (aset db user
        (aset ts symbol ⟨target_price, req.trigger_type.getD "below", false⟩))

/-- src/app.py lines 590-608, `api_delete_target`: uppercase the symbol
and, when the user has a target for it, delete that binding and write
the user data back (returning success `true`); otherwise leave the
database unchanged (HTTP 404, returned here as `false`). -/
def api_delete_target (db : Db) (user : String) (symbolReq : Option String) : Db × Bool :=
  let symbol := upper (symbolReq.getD "")
  match alookup db user with
  | none => (db, false)
  | some ts =>
    if (alookup ts symbol).isSome then
      (aset db user (aerase ts symbol), true)
    else
      (db, false)

/-- The price oracle boundary of `fetch_price_blocking`
(lines 611-620): per symbol, either a price or `none` (empty data frame
or any exception, both of which the function itself absorbs). -/
abbrev Oracle := String → Option ℚ

/-- The rendered notification of lines 674-678: the message interpolates
the user id, the symbol, the current price and the target price. -/
structure Message where
  user : String
  symbol : String
  price : ℚ
  target : ℚ
deriving DecidableEq, Repr

/-- The delivery boundary of `send_telegram_notification`
(lines 622-634): the function absorbs every transport error internally,
so from the caller's side it is total; its Boolean outcome (HTTP 200 or
not) is never inspected by `run_stock_checker`. -/
abbrev Dispatcher := Message → Bool

/-- src/app.py lines 667-671: the firing decision.  `True` exactly when
`trigger_type == 'below' and current_price <= target`, or
`trigger_type == 'above' and current_price >= target`. -/
def shouldNotify (trigger_type : String) (current_price target : ℚ) : Bool :=
  if trigger_type = "below" ∧ current_price ≤ target then true
  else if trigger_type = "above" ∧ current_price ≥ target then true
  else false

/-- src/app.py line 681: `user_data.targets[symbol]["notified"] = True`
applied to one entry. -/
def markNotified (d : TargetData) : TargetData :=
  ⟨d.target, d.trigger_type, true⟩

/-- lines 681-682: the user data the checker writes back after a fire:
its own in-hand copy of `user_data.targets`, with the fired symbol's
entry marked notified. -/
def fire_commit (user_data : Targets) (symbol : String) (data : TargetData) : Targets :=
  aset user_data symbol (markNotified data)

/-- The observable state of one checker cycle: the database plus the log
of price-fetch events (tagged with the target that caused each fetch,
since the code fetches inside the per-target loop) and of delivery
attempts with their transport outcomes. -/
structure CycleState where
  db : Db
  fetches : List (String × String)
  deliveries : List (Message × Bool)
deriving Repr

/-- src/app.py lines 655-682: processing of one snapshotted target
`(symbol, data)` of `user`.  A notified target is skipped before any
fetch; otherwise the symbol is fetched; an unavailable price skips the
target; a firing target causes one delivery attempt and an immediate
per-user database write of the checker's in-hand user data. -/
def checkTarget (f : Oracle) (d : Dispatcher) (user : String)
    (acc : Targets × CycleState) (e : String × TargetData) : Targets × CycleState :=
  if e.2.notified then acc
  else
    let st1 : CycleState :=
      ⟨acc.2.db, acc.2.fetches ++ [(user, e.1)], acc.2.deliveries⟩
    match f e.1 with
    | none => (acc.1, st1)
    | some current_price =>
      if shouldNotify e.2.trigger_type current_price e.2.target then
        let msg : Message := ⟨user, e.1, current_price, e.2.target⟩
        let ud2 := fire_commit acc.1 e.1 e.2
        (ud2, ⟨aset st1.db user ud2, st1.fetches, st1.deliveries ++ [(msg, d msg)]⟩)
      else (acc.1, st1)

/-- src/app.py lines 645-687: processing of one user.  The user's data is
read once, its targets are snapshotted (`list(user_data.targets.items())`,
line 654) and each snapshot entry is processed in order. -/
def checkUser (f : Oracle) (d : Dispatcher) (st : CycleState) (user : String) : CycleState :=
  match alookup st.db user with
  | none => st
  | some user_data => (user_data.foldl (checkTarget f d user) (user_data, st)).2

/-- One iteration of the `while True` loop of `run_stock_checker`
(lines 636-690): snapshot the user keys (line 640) and process every
user in order against the cycle's fetch and delivery outcomes. -/
def run_cycle (f : Oracle) (d : Dispatcher) (db : Db) : CycleState :=
  (db.map Prod.fst).foldl (checkUser f d) ⟨db, [], []⟩

/-- A finite run of successive checker cycles, each cycle with its own
per-symbol fetch outcomes and per-message delivery outcomes, with the
fetch and delivery logs concatenated. -/
def run_cycles : List (Oracle × Dispatcher) → Db → CycleState
  | [], db => ⟨db, [], []⟩
  | c :: rest, db =>
    let st := run_cycle c.1 c.2 db
    let st2 := run_cycles rest st.db
    ⟨st2.db, st.fetches ++ st2.fetches, st.deliveries ++ st2.deliveries⟩

/-- The firing condition of one snapshot entry, as a function of the
entry alone and the fetch outcome of its own symbol (lines 660-671). -/
def firesEntry (f : Oracle) (e : String × TargetData) : Bool :=
  if e.2.notified then false
  else
    match f e.1 with
    | none => false
    | some p => shouldNotify e.2.trigger_type p e.2.target

/-- Pointwise effect of one cycle on one snapshot entry. -/
def procEntry (f : Oracle) (e : String × TargetData) : String × TargetData :=
  (e.1, if firesEntry f e then markNotified e.2 else e.2)

/-- The fetch events one snapshot entry of `u` causes: none when the
entry is already notified, otherwise exactly one (line 663). -/
def stepFetches (u : String) (e : String × TargetData) : List (String × String) :=
  if e.2.notified then [] else [(u, e.1)]

/-- The delivery attempts one snapshot entry of `u` causes (line 679):
exactly one when the entry fires, none otherwise. -/
def stepDeliv (f : Oracle) (d : Dispatcher) (u : String) (e : String × TargetData) :
    List (Message × Bool) :=
  if e.2.notified then []
  else
    match f e.1 with
    | none => []
    | some p =>
      if shouldNotify e.2.trigger_type p e.2.target then
        [(⟨u, e.1, p, e.2.target⟩, d ⟨u, e.1, p, e.2.target⟩)]
      else []

/-- All fetch events one user's snapshot causes. -/
def fetchesOf (p : String × Targets) : List (String × String) :=
  p.2.flatMap (stepFetches p.1)

/-- All delivery attempts one user's snapshot causes. -/
def delivOf (f : Oracle) (d : Dispatcher) (p : String × Targets) : List (Message × Bool) :=
  p.2.flatMap (stepDeliv f d p.1)

/-- Pointwise effect of one cycle on one user's binding. -/
def userProc (f : Oracle) (p : String × Targets) : String × Targets :=
  (p.1, p.2.map (procEntry f))

/-- The delivery-log entries addressed at user `u`'s target on symbol
`s`. -/
def forTarget (u s : String) (md : Message × Bool) : Bool :=
  md.1.user == u && md.1.symbol == s

/-! ### Association-list lemmas -/

theorem alookup_aset_self {α : Type} (l : List (String × α)) (s : String) (v : α) :
    alookup (aset l s v) s = some v := by
  induction l with
  | nil => simp [aset, alookup]
  | cons p rest ih =>
    rcases p with ⟨k1, v1⟩
    by_cases h : k1 = s
    · simp [aset, alookup, h]
    · simp [aset, alookup, h, ih]

theorem alookup_aset_ne {α : Type} (l : List (String × α)) (s k : String) (v : α)
    (h : k ≠ s) : alookup (aset l s v) k = alookup l k := by
  have hsk : s ≠ k := Ne.symm h
  induction l with
  | nil => simp [aset, alookup, hsk]
  | cons p rest ih =>
    rcases p with ⟨k1, v1⟩
    by_cases hp : k1 = s
    · subst hp
      simp [aset, alookup, hsk]
    · by_cases hk : k1 = k <;> simp [aset, alookup, hp, hk, ih, h]

theorem mem_of_alookup {α : Type} :
    ∀ {l : List (String × α)} {k : String} {v : α},
      alookup l k = some v → (k, v) ∈ l := by
  intro l
  induction l with
  | nil => intro k v h; simp [alookup] at h
  | cons p rest ih =>
    rcases p with ⟨k1, v1⟩
    intro k v h
    by_cases hp : k1 = k
    · subst hp
      simp [alookup] at h
      subst h
      exact List.mem_cons_self _ _
    · simp [alookup, hp] at h
      exact List.mem_cons_of_mem _ (ih h)

theorem alookup_of_mem_nodup {α : Type} :
    ∀ {l : List (String × α)} {k : String} {v : α},
      (l.map Prod.fst).Nodup → (k, v) ∈ l → alookup l k = some v := by
  intro l
  induction l with
  | nil => intro k v _ h; simp at h
  | cons p rest ih =>
    rcases p with ⟨k1, v1⟩
    intro k v hnd hm
    rcases List.mem_cons.1 hm with h | h
    · rw [Prod.mk.injEq] at h
      simp [alookup, h.1.symm, h.2]
    · have hk : k1 ≠ k := by
        intro he
        have hmem : k ∈ rest.map Prod.fst := List.mem_map.2 ⟨(k, v), h, rfl⟩
        rw [List.map_cons, List.nodup_cons] at hnd
        exact hnd.1 (he ▸ hmem)
      have hrest : (rest.map Prod.fst).Nodup := by
        rw [List.map_cons, List.nodup_cons] at hnd
        exact hnd.2
      simp [alookup, hk, ih hrest h]

theorem alookup_append_cons {α : Type} (A : List (String × α)) (u : String) (v : α)
    (B : List (String × α)) (hA : u ∉ A.map Prod.fst) :
    alookup (A ++ (u, v) :: B) u = some v := by
  induction A with
  | nil => simp [alookup]
  | cons p rest ih =>
    rcases p with ⟨k1, v1⟩
    have h1 : k1 ≠ u := by
      intro he
      exact hA (by simp [he])
    have h2 : u ∉ rest.map Prod.fst := fun hm => hA (by simp [hm])
    simp [alookup, h1, ih h2]

theorem aset_append_cons {α : Type} (A : List (String × α)) (u : String) (v w : α)
    (B : List (String × α)) (hA : u ∉ A.map Prod.fst) :
    aset (A ++ (u, v) :: B) u w = A ++ (u, w) :: B := by
  induction A with
  | nil => simp [aset]
  | cons p rest ih =>
    rcases p with ⟨k1, v1⟩
    have h1 : k1 ≠ u := by
      intro he
      exact hA (by simp [he])
    have h2 : u ∉ rest.map Prod.fst := fun hm => hA (by simp [hm])
    simp [aset, h1, ih h2]

theorem dbEntry_some_elim {db : Db} {u s : String} {data : TargetData}
    (h : dbEntry db u s = some data) :
    ∃ ts, alookup db u = some ts ∧ alookup ts s = some data := by
  unfold dbEntry at h
  cases hu : alookup db u with
  | none => rw [hu] at h; simp at h
  | some ts => rw [hu] at h; exact ⟨ts, rfl, h⟩

/-! ### Per-entry step lemmas for the checker -/

theorem stepDeliv_eq_nil_of_nofire (f : Oracle) (d : Dispatcher) (u : String)
    (e : String × TargetData) (h : firesEntry f e = false) :
    stepDeliv f d u e = [] := by
  unfold firesEntry at h
  unfold stepDeliv
  cases hn : e.2.notified with
  | true => simp
  | false =>
    rw [hn] at h
    simp only [if_false, Bool.false_eq_true] at h ⊢
    cases hf : f e.1 with
    | none => simp
    | some p =>
      rw [hf] at h
      simp only [] at h
      simp [h]

theorem stepDeliv_fire (f : Oracle) (d : Dispatcher) (u : String)
    (e : String × TargetData) (p : ℚ) (hn : e.2.notified = false)
    (hf : f e.1 = some p) (hs : shouldNotify e.2.trigger_type p e.2.target = true) :
    stepDeliv f d u e = [(⟨u, e.1, p, e.2.target⟩, d ⟨u, e.1, p, e.2.target⟩)] := by
  unfold stepDeliv
  rw [hn, hf]
  simp [hs]

theorem firesEntry_true_elim {f : Oracle} {e : String × TargetData}
    (h : firesEntry f e = true) :
    e.2.notified = false ∧ ∃ p, f e.1 = some p ∧
      shouldNotify e.2.trigger_type p e.2.target = true := by
  unfold firesEntry at h
  cases hn : e.2.notified with
  | true => rw [hn] at h; simp at h
  | false =>
    rw [hn] at h
    simp only [if_false, Bool.false_eq_true] at h
    cases hf : f e.1 with
    | none => rw [hf] at h; simp at h
    | some p =>
      rw [hf] at h
      exact ⟨rfl, p, rfl, h⟩

theorem procEntry_eq_self (f : Oracle) (e : String × TargetData)
    (h : firesEntry f e = false) : procEntry f e = e := by
  unfold procEntry
  rw [h]
  simp

theorem procEntry_fire (f : Oracle) (e : String × TargetData)
    (h : firesEntry f e = true) : procEntry f e = (e.1, markNotified e.2) := by
  unfold procEntry
  rw [h]
  simp

theorem noFire_map_procEntry (f : Oracle) :
    ∀ l : Targets, l.any (firesEntry f) = false → l.map (procEntry f) = l := by
  intro l
  induction l with
  | nil => simp
  | cons e rest ih =>
    intro h
    rw [List.any_cons] at h
    have h1 : firesEntry f e = false := by
      cases hfe : firesEntry f e
      · rfl
      · rw [hfe] at h; simp at h
    have h2 : rest.any (firesEntry f) = false := by
      cases hr : rest.any (firesEntry f)
      · rfl
      · rw [hr] at h; simp at h
    simp [procEntry_eq_self f e h1, ih h2]

theorem checkTarget_nofire (f : Oracle) (d : Dispatcher) (user : String)
    (acc : Targets × CycleState) (e : String × TargetData)
    (h : firesEntry f e = false) :
    checkTarget f d user acc e =
      (acc.1, ⟨acc.2.db, acc.2.fetches ++ stepFetches user e, acc.2.deliveries⟩) := by
  unfold firesEntry at h
  unfold checkTarget stepFetches
  cases hn : e.2.notified with
  | true => simp
  | false =>
    rw [hn] at h
    simp only [if_false, Bool.false_eq_true] at h ⊢
    cases hf : f e.1 with
    | none => simp
    | some p =>
      rw [hf] at h
      simp only [] at h
      simp [h]

theorem checkTarget_fire (f : Oracle) (d : Dispatcher) (user : String)
    (acc : Targets × CycleState) (e : String × TargetData) (p : ℚ)
    (hn : e.2.notified = false) (hf : f e.1 = some p)
    (hs : shouldNotify e.2.trigger_type p e.2.target = true) :
    checkTarget f d user acc e =
      (fire_commit acc.1 e.1 e.2,
       ⟨aset acc.2.db user (fire_commit acc.1 e.1 e.2),
        acc.2.fetches ++ [(user, e.1)],
        acc.2.deliveries ++
          [(⟨user, e.1, p, e.2.target⟩, d ⟨user, e.1, p, e.2.target⟩)]⟩) := by
  unfold checkTarget
  rw [hn, hf]
  simp [hs]

/-! ### Fold characterization of one cycle

Within one user's inner loop the checker's in-hand `user_data` and the
database binding for that user evolve together: every mutation of the
in-hand copy (line 681) is immediately followed by the database write
(line 682), so the binding always equals the in-hand copy.  The fold is
characterized pointwise: each snapshot entry's outcome depends only on
that entry and the fetch result of its own symbol. -/

theorem tfold_eq (f : Oracle) (d : Dispatcher) (u : String) :
    ∀ (suf done : Targets) (st : CycleState) (A B : Db),
      st.db = A ++ (u, done ++ suf) :: B →
      u ∉ A.map Prod.fst →
      (∀ k ∈ suf.map Prod.fst, k ∉ done.map Prod.fst) →
      (suf.map Prod.fst).Nodup →
      List.foldl (checkTarget f d u) (done ++ suf, st) suf =
        (done ++ suf.map (procEntry f),
         ⟨A ++ (u, done ++ suf.map (procEntry f)) :: B,
          st.fetches ++ suf.flatMap (stepFetches u),
          st.deliveries ++ suf.flatMap (stepDeliv f d u)⟩) := by
  intro suf
  induction suf with
  | nil =>
    intro done st A B hdb hA hdisj hnd
    rcases st with ⟨sdb, sf, sdel⟩
    simp only [List.append_nil] at hdb
    simp [hdb]
  | cons e rest ih =>
    rcases e with ⟨s0, dta⟩
    intro done st A B hdb hA hdisj hnd
    rw [List.foldl_cons]
    have he1done : s0 ∉ done.map Prod.fst := hdisj s0 (by simp)
    have hs0rest : s0 ∉ rest.map Prod.fst := by
      rw [List.map_cons, List.nodup_cons] at hnd
      exact hnd.1
    have hnd2 : (rest.map Prod.fst).Nodup := by
      rw [List.map_cons, List.nodup_cons] at hnd
      exact hnd.2
    cases hfe : firesEntry f (s0, dta) with
    | false =>
      rw [checkTarget_nofire f d u _ _ hfe]
      have hdisj2 : ∀ k ∈ rest.map Prod.fst,
          k ∉ (done ++ [(s0, dta)]).map Prod.fst := by
        intro k hk
        rw [List.map_append]
        intro hmem
        rcases List.mem_append.1 hmem with hm | hm
        · exact hdisj k (by simp [hk]) hm
        · simp at hm
          exact hs0rest (hm ▸ hk)
      have hacc : done ++ (s0, dta) :: rest = (done ++ [(s0, dta)]) ++ rest := by
        simp
      have hdb2 :
          (⟨st.db, st.fetches ++ stepFetches u (s0, dta), st.deliveries⟩ :
            CycleState).db = A ++ (u, (done ++ [(s0, dta)]) ++ rest) :: B := by
        simp only [hdb, ← hacc]
      have H := ih (done ++ [(s0, dta)])
        ⟨st.db, st.fetches ++ stepFetches u (s0, dta), st.deliveries⟩
        A B hdb2 hA hdisj2 hnd2
      rw [hacc, H]
      simp [procEntry_eq_self f (s0, dta) hfe,
        stepDeliv_eq_nil_of_nofire f d u (s0, dta) hfe, List.append_assoc]
    | true =>
      obtain ⟨hn, p, hf, hs⟩ := firesEntry_true_elim hfe
      rw [checkTarget_fire f d u _ _ p hn hf hs]
      have hcommit : fire_commit (done ++ (s0, dta) :: rest) s0 dta =
          done ++ (s0, markNotified dta) :: rest := by
        unfold fire_commit
        exact aset_append_cons done s0 dta (markNotified dta) rest he1done
      have hdbset : aset st.db u (done ++ (s0, markNotified dta) :: rest) =
          A ++ (u, done ++ (s0, markNotified dta) :: rest) :: B := by
        rw [hdb]
        exact aset_append_cons A u _ _ B hA
      have hdisj2 : ∀ k ∈ rest.map Prod.fst,
          k ∉ (done ++ [(s0, markNotified dta)]).map Prod.fst := by
        intro k hk
        rw [List.map_append]
        intro hmem
        rcases List.mem_append.1 hmem with hm | hm
        · exact hdisj k (by simp [hk]) hm
        · simp at hm
          exact hs0rest (hm ▸ hk)
      have hacc : done ++ (s0, markNotified dta) :: rest =
          (done ++ [(s0, markNotified dta)]) ++ rest := by
        simp
      have H := ih (done ++ [(s0, markNotified dta)])
        ⟨A ++ (u, (done ++ [(s0, markNotified dta)]) ++ rest) :: B,
          st.fetches ++ [(u, s0)],
          st.deliveries ++ [(⟨u, s0, p, dta.target⟩, d ⟨u, s0, p, dta.target⟩)]⟩
        A B rfl hA hdisj2 hnd2
      rw [hcommit, hdbset, hacc, H]
      have hn2 : dta.notified = false := hn
      simp [procEntry_fire f (s0, dta) hfe, stepFetches, hn2,
        stepDeliv_fire f d u (s0, dta) p hn hf hs, List.append_assoc]

theorem checkUser_eq (f : Oracle) (d : Dispatcher) (st : CycleState) (u : String)
    (A B : Db) (ts : Targets)
    (hdb : st.db = A ++ (u, ts) :: B) (hA : u ∉ A.map Prod.fst)
    (hts : (ts.map Prod.fst).Nodup) :
    checkUser f d st u =
      ⟨A ++ (u, ts.map (procEntry f)) :: B,
       st.fetches ++ ts.flatMap (stepFetches u),
       st.deliveries ++ ts.flatMap (stepDeliv f d u)⟩ := by
  have hlk : alookup st.db u = some ts := by
    rw [hdb]
    exact alookup_append_cons A u ts B hA
  unfold checkUser
  rw [hlk]
  have H := tfold_eq f d u ts [] st A B (by simpa using hdb) hA (by simp) hts
  simp only [List.nil_append] at H
  show (List.foldl (checkTarget f d u) (ts, st) ts).2 = _
  rw [H]

theorem ufold_eq (f : Oracle) (d : Dispatcher) :
    ∀ (suf done : Db) (st : CycleState),
      st.db = done ++ suf →
      ((done ++ suf).map Prod.fst).Nodup →
      (∀ p ∈ suf, (p.2.map Prod.fst).Nodup) →
      List.foldl (checkUser f d) st (suf.map Prod.fst) =
        ⟨done ++ suf.map (userProc f),
         st.fetches ++ suf.flatMap fetchesOf,
         st.deliveries ++ suf.flatMap (delivOf f d)⟩ := by
  intro suf
  induction suf with
  | nil =>
    intro done st hdb hnd hall
    rcases st with ⟨sdb, sf, sdel⟩
    simp only [List.append_nil] at hdb
    simp [hdb]
  | cons q rest ih =>
    rcases q with ⟨u, ts⟩
    intro done st hdb hnd hall
    rw [List.map_cons, List.foldl_cons]
    have hA : u ∉ done.map Prod.fst := by
      rw [List.map_append, List.map_cons] at hnd
      have hmid := List.nodup_middle.1 hnd
      rw [List.nodup_cons] at hmid
      intro hm
      exact hmid.1 (List.mem_append.2 (Or.inl hm))
    have hts : (ts.map Prod.fst).Nodup := hall (u, ts) (by simp)
    rw [checkUser_eq f d st u done rest ts hdb hA hts]
    have hall2 : ∀ p ∈ rest, (p.2.map Prod.fst).Nodup := by
      intro p hp
      exact hall p (by simp [hp])
    have hnd2 : (((done ++ [(u, ts.map (procEntry f))]) ++ rest).map Prod.fst).Nodup := by
      rw [List.map_append, List.map_cons] at hnd
      simpa [List.append_assoc] using hnd
    have H := ih (done ++ [(u, ts.map (procEntry f))])
      ⟨(done ++ [(u, ts.map (procEntry f))]) ++ rest,
        st.fetches ++ ts.flatMap (stepFetches u),
        st.deliveries ++ ts.flatMap (stepDeliv f d u)⟩
      rfl hnd2 hall2
    have hshape : done ++ (u, ts.map (procEntry f)) :: rest =
        (done ++ [(u, ts.map (procEntry f))]) ++ rest := by
      simp
    rw [hshape, H]
    simp [userProc, fetchesOf, delivOf, List.append_assoc]

/-- One checker cycle, characterized pointwise: under the dict
well-formedness invariant, the resulting database applies `procEntry`
to every snapshot entry of every user, the fetch log contains one event
per non-notified snapshot entry, and the delivery log contains one
attempt per firing snapshot entry. -/
theorem run_cycle_eq (f : Oracle) (d : Dispatcher) (db : Db) (hg : GoodDb db) :
    run_cycle f d db =
      ⟨db.map (userProc f), db.flatMap fetchesOf, db.flatMap (delivOf f d)⟩ := by
  unfold run_cycle
  have H := ufold_eq f d db [] ⟨db, [], []⟩ rfl (by simpa using hg.1) hg.2
  simpa using H

/-! ### Corollaries on individual entries and logs -/

theorem alookup_map_userProc (f : Oracle) :
    ∀ (db : Db) (u : String),
      alookup (db.map (userProc f)) u =
        (alookup db u).map (fun ts => ts.map (procEntry f)) := by
  intro db
  induction db with
  | nil => intro u; simp [alookup]
  | cons p rest ih =>
    rcases p with ⟨u1, ts1⟩
    intro u
    by_cases h : u1 = u
    · simp [userProc, alookup, h]
    · simp [userProc, alookup, h, ih]

theorem alookup_map_procEntry (f : Oracle) :
    ∀ (ts : Targets) (s : String),
      alookup (ts.map (procEntry f)) s =
        (alookup ts s).map
          (fun dta => if firesEntry f (s, dta) then markNotified dta else dta) := by
  intro ts
  induction ts with
  | nil => intro s; simp [alookup]
  | cons e rest ih =>
    rcases e with ⟨k1, v1⟩
    intro s
    by_cases h : k1 = s
    · subst h
      simp [procEntry, alookup]
    · simp [procEntry, alookup, h, ih]

/-- The per-entry effect of one cycle on the stored data: a target fires
exactly according to its own entry and its own symbol's fetch result,
and is otherwise unchanged. -/
theorem dbEntry_run_cycle (f : Oracle) (d : Dispatcher) (db : Db) (u s : String)
    (hg : GoodDb db) :
    dbEntry (run_cycle f d db).db u s =
      (dbEntry db u s).map
        (fun dta => if firesEntry f (s, dta) then markNotified dta else dta) := by
  rw [run_cycle_eq f d db hg]
  unfold dbEntry
  rw [alookup_map_userProc]
  cases alookup db u with
  | none => simp
  | some ts => simp [alookup_map_procEntry]

/-- One cycle preserves the dict well-formedness invariant. -/
theorem goodDb_run_cycle (f : Oracle) (d : Dispatcher) (db : Db) (hg : GoodDb db) :
    GoodDb (run_cycle f d db).db := by
  rw [run_cycle_eq f d db hg]
  constructor
  · have : (db.map (userProc f)).map Prod.fst = db.map Prod.fst := by
      rw [List.map_map]
      apply List.map_congr_left
      intro p _
      rfl
    rw [this]
    exact hg.1
  · intro p hp
    rcases List.mem_map.1 hp with ⟨q, hq, rfl⟩
    have : ((userProc f q).2).map Prod.fst = q.2.map Prod.fst := by
      unfold userProc
      rw [List.map_map]
      apply List.map_congr_left
      intro e _
      rfl
    rw [this]
    exact hg.2 q hq

theorem mem_stepFetches {u : String} {e : String × TargetData} {x : String × String}
    (h : x ∈ stepFetches u e) : e.2.notified = false ∧ x = (u, e.1) := by
  unfold stepFetches at h
  cases hn : e.2.notified with
  | true => rw [hn] at h; simp at h
  | false =>
    rw [hn] at h
    simp at h
    exact ⟨rfl, h⟩

theorem mem_stepDeliv {f : Oracle} {d : Dispatcher} {u : String}
    {e : String × TargetData} {md : Message × Bool}
    (h : md ∈ stepDeliv f d u e) :
    e.2.notified = false ∧ md.1.user = u ∧ md.1.symbol = e.1 ∧
      ∃ p, f e.1 = some p ∧ shouldNotify e.2.trigger_type p e.2.target = true ∧
        md = (⟨u, e.1, p, e.2.target⟩, d ⟨u, e.1, p, e.2.target⟩) := by
  unfold stepDeliv at h
  cases hn : e.2.notified with
  | true => rw [hn] at h; simp at h
  | false =>
    rw [hn] at h
    simp only [if_false, Bool.false_eq_true] at h
    cases hf : f e.1 with
    | none => rw [hf] at h; simp at h
    | some p =>
      rw [hf] at h
      simp only [] at h
      cases hs : shouldNotify e.2.trigger_type p e.2.target with
      | false => rw [hs] at h; simp at h
      | true =>
        rw [hs] at h
        simp at h
        exact ⟨rfl, by simp [h], by simp [h], p, rfl, hs, h⟩

theorem forTarget_eq_true {u s : String} {md : Message × Bool} :
    forTarget u s md = true ↔ md.1.user = u ∧ md.1.symbol = s := by
  unfold forTarget
  simp

/-- A notified snapshot entry causes no fetch event in the cycle. -/
theorem cycle_no_fetch (f : Oracle) (d : Dispatcher) (db : Db) (u s : String)
    (data : TargetData) (hg : GoodDb db) (he : dbEntry db u s = some data)
    (hn : data.notified = true) :
    (u, s) ∉ (run_cycle f d db).fetches := by
  obtain ⟨ts, hu, hsl⟩ := dbEntry_some_elim he
  rw [run_cycle_eq f d db hg]
  intro hmem
  simp only [] at hmem
  rcases List.mem_flatMap.1 hmem with ⟨q, hq, hmem2⟩
  unfold fetchesOf at hmem2
  rcases List.mem_flatMap.1 hmem2 with ⟨e, hse, hmem3⟩
  obtain ⟨hnf, hx⟩ := mem_stepFetches hmem3
  rw [Prod.mk.injEq] at hx
  have hq' : (u, q.2) ∈ db := by
    rw [hx.1]
    simpa using hq
  have hq2 : q.2 = ts := by
    have h2 := alookup_of_mem_nodup hg.1 hq'
    rw [hu] at h2
    exact (Option.some.inj h2).symm
  have he' : (s, e.2) ∈ ts := by
    rw [hx.2, ← hq2]
    simpa using hse
  have he2 : e.2 = data := by
    have h2 := alookup_of_mem_nodup (hg.2 (u, ts) (hq2 ▸ hq')) he'
    rw [hsl] at h2
    exact (Option.some.inj h2).symm
  rw [he2, hn] at hnf
  simp at hnf

/-- A non-notified snapshot entry causes exactly its own fetch event. -/
theorem cycle_fetch_mem (f : Oracle) (d : Dispatcher) (db : Db) (u s : String)
    (data : TargetData) (hg : GoodDb db) (he : dbEntry db u s = some data)
    (hn : data.notified = false) :
    (u, s) ∈ (run_cycle f d db).fetches := by
  obtain ⟨ts, hu, hsl⟩ := dbEntry_some_elim he
  rw [run_cycle_eq f d db hg]
  simp only []
  refine List.mem_flatMap.2 ⟨(u, ts), mem_of_alookup hu, ?_⟩
  unfold fetchesOf
  refine List.mem_flatMap.2 ⟨(s, data), mem_of_alookup hsl, ?_⟩
  simp [stepFetches, hn]

/-- Generic collapse of a `flatMap` over an association list whose keys
are unique, when the mapped function vanishes off one key. -/
theorem flatMap_eq_of_alookup {α β : Type} (g : String × α → List β) :
    ∀ (l : List (String × α)) (k : String) (v : α),
      (l.map Prod.fst).Nodup → alookup l k = some v →
      (∀ e ∈ l, e.1 ≠ k → g e = []) →
      l.flatMap g = g (k, v) := by
  intro l
  induction l with
  | nil => intro k v _ h _; simp [alookup] at h
  | cons q rest ih =>
    rcases q with ⟨k1, v1⟩
    intro k v hnd hlk hvan
    rw [List.flatMap_cons]
    by_cases h1 : k1 = k
    · subst h1
      rw [alookup] at hlk
      simp at hlk
      subst hlk
      have hrest : rest.flatMap g = [] := by
        rw [List.flatMap_eq_nil_iff]
        intro e he
        refine hvan e (by simp [he]) ?_
        intro hek
        rw [List.map_cons, List.nodup_cons] at hnd
        exact hnd.1 (hek ▸ List.mem_map.2 ⟨e, he, rfl⟩)
      rw [hrest, List.append_nil]
    · rw [alookup] at hlk
      simp [h1] at hlk
      have hx : g (k1, v1) = [] := hvan (k1, v1) (by simp) h1
      rw [hx, List.nil_append]
      refine ih k v ?_ hlk ?_
      · rw [List.map_cons, List.nodup_cons] at hnd
        exact hnd.2
      · intro e he hek
        exact hvan e (by simp [he]) hek

/-- When the snapshot entry of `(u, s)` does not fire, the cycle's
delivery log contains no attempt for it. -/
theorem cycle_deliv_filter_nil (f : Oracle) (d : Dispatcher) (db : Db)
    (u s : String) (data : TargetData) (hg : GoodDb db)
    (he : dbEntry db u s = some data) (hfire : firesEntry f (s, data) = false) :
    (run_cycle f d db).deliveries.filter (forTarget u s) = [] := by
  obtain ⟨ts, hu, hsl⟩ := dbEntry_some_elim he
  rw [run_cycle_eq f d db hg]
  simp only []
  rw [List.filter_eq_nil_iff]
  intro md hmem hpred
  obtain ⟨hmu, hms⟩ := forTarget_eq_true.1 hpred
  rcases List.mem_flatMap.1 hmem with ⟨q, hq, hmem2⟩
  unfold delivOf at hmem2
  rcases List.mem_flatMap.1 hmem2 with ⟨e, hse, hmem3⟩
  obtain ⟨hnf, hu', hs', p, hfp, hsp, hmd⟩ := mem_stepDeliv hmem3
  have huq : u = q.1 := by rw [← hmu]; exact hu'
  have hse1 : s = e.1 := by rw [← hms]; exact hs'
  have hq' : (u, q.2) ∈ db := by
    rw [huq]
    simpa using hq
  have hq2 : q.2 = ts := by
    have h2 := alookup_of_mem_nodup hg.1 hq'
    rw [hu] at h2
    exact (Option.some.inj h2).symm
  have he' : (s, e.2) ∈ ts := by
    rw [hse1, ← hq2]
    simpa using hse
  have he2 : e.2 = data := by
    have h2 := alookup_of_mem_nodup (hg.2 (u, ts) (hq2 ▸ hq')) he'
    rw [hsl] at h2
    exact (Option.some.inj h2).symm
  have hdn : data.notified = false := by rw [← he2]; exact hnf
  have hfs : f s = some p := by rw [hse1]; exact hfp
  have hsp2 : shouldNotify data.trigger_type p data.target = true := by
    rw [← he2]
    rw [show (s, e.2).2.trigger_type = e.2.trigger_type from rfl] at hsp
    exact hsp
  have hcontra : firesEntry f (s, data) = true := by
    simp [firesEntry, hdn, hfs, hsp2]
  rw [hcontra] at hfire
  simp at hfire

/-- When the snapshot entry of `(u, s)` fires, the cycle's delivery log
contains exactly one attempt for it: the rendered message and the
dispatcher's outcome for it. -/
theorem cycle_deliv_filter_singleton (f : Oracle) (d : Dispatcher) (db : Db)
    (u s : String) (data : TargetData) (p : ℚ) (hg : GoodDb db)
    (he : dbEntry db u s = some data) (hn : data.notified = false)
    (hf : f s = some p) (hs : shouldNotify data.trigger_type p data.target = true) :
    (run_cycle f d db).deliveries.filter (forTarget u s) =
      [(⟨u, s, p, data.target⟩, d ⟨u, s, p, data.target⟩)] := by
  obtain ⟨ts, hu, hsl⟩ := dbEntry_some_elim he
  have hts : (ts.map Prod.fst).Nodup := hg.2 (u, ts) (mem_of_alookup hu)
  rw [run_cycle_eq f d db hg]
  simp only []
  rw [List.filter_flatMap]
  have houter : (db.flatMap fun q => (delivOf f d q).filter (forTarget u s)) =
      (delivOf f d (u, ts)).filter (forTarget u s) := by
    refine flatMap_eq_of_alookup _ db u ts hg.1 hu ?_
    intro q hq hquser
    rw [List.filter_eq_nil_iff]
    intro md hmd hpred
    unfold delivOf at hmd
    rcases List.mem_flatMap.1 hmd with ⟨e, hse, hmem3⟩
    obtain ⟨_, hu', _, _⟩ := mem_stepDeliv hmem3
    obtain ⟨hmu, _⟩ := forTarget_eq_true.1 hpred
    exact hquser (by rw [← hu']; exact hmu)
  rw [houter]
  unfold delivOf
  rw [List.filter_flatMap]
  have hinner : (ts.flatMap fun e => (stepDeliv f d u e).filter (forTarget u s)) =
      (stepDeliv f d u (s, data)).filter (forTarget u s) := by
    refine flatMap_eq_of_alookup _ ts s data hts hsl ?_
    intro e hse hesym
    rw [List.filter_eq_nil_iff]
    intro md hmd hpred
    obtain ⟨_, _, hs', _⟩ := mem_stepDeliv hmd
    obtain ⟨_, hms⟩ := forTarget_eq_true.1 hpred
    exact hesym (by rw [← hs']; exact hms)
  rw [hinner]
  rw [stepDeliv_fire f d u (s, data) p hn hf hs]
  simp [forTarget]

/-- The dispatcher's outcomes never influence the cycle: two runs of the
same cycle that differ only in delivery outcomes produce the same
database, the same fetch log, and the same attempted messages. -/
theorem run_cycle_dispatcher_irrelevant (f : Oracle) (d1 d2 : Dispatcher)
    (db : Db) (hg : GoodDb db) :
    (run_cycle f d1 db).db = (run_cycle f d2 db).db ∧
    (run_cycle f d1 db).fetches = (run_cycle f d2 db).fetches ∧
    (run_cycle f d1 db).deliveries.map Prod.fst =
      (run_cycle f d2 db).deliveries.map Prod.fst := by
  rw [run_cycle_eq f d1 db hg, run_cycle_eq f d2 db hg]
  refine ⟨rfl, rfl, ?_⟩
  simp only [List.map_flatMap]
  apply List.flatMap_congr
  intro q _
  unfold delivOf
  simp only [List.map_flatMap]
  apply List.flatMap_congr
  intro e _
  unfold stepDeliv
  cases e.2.notified with
  | true => simp
  | false =>
    simp only [if_false, Bool.false_eq_true]
    cases f e.1 with
    | none => simp
    | some p =>
      cases hsp : shouldNotify e.2.trigger_type p e.2.target with
      | false => simp [hsp]
      | true => simp [hsp]

/-- The per-target form of the cycle's fetch log. -/
theorem stepFetches_flatMap_eq (u : String) :
    ∀ ts : Targets,
      ts.flatMap (stepFetches u) =
        (ts.filter (fun e => !e.2.notified)).map (fun e => (u, e.1)) := by
  intro ts
  induction ts with
  | nil => simp
  | cons e rest ih =>
    rw [List.flatMap_cons]
    cases hn : e.2.notified with
    | true => simp [stepFetches, hn, ih]
    | false => simp [stepFetches, hn, ih]

/-! ### Claim theorems -/

/-- C2: for a pending target and an available price sample, the firing
decision of lines 667-671 is Fire exactly when the direction is
"below" and the price is at most the threshold, or the direction is
"above" and the price is at least the threshold; a price equal to the
threshold fires for both directions (the comparisons are inclusive). -/
theorem c2_evaluator_iff (t : String) (price target : ℚ) :
    (shouldNotify t price target = true ↔
      ((t = "below" ∧ price ≤ target) ∨ (t = "above" ∧ target ≤ price))) ∧
    shouldNotify "below" target target = true ∧
    shouldNotify "above" target target = true := by
  refine ⟨?_, by simp [shouldNotify], by simp [shouldNotify]⟩
  unfold shouldNotify
  split_ifs with h1 h2
  · exact iff_of_true rfl (Or.inl h1)
  · exact iff_of_true rfl (Or.inr ⟨h2.1, h2.2⟩)
  · refine iff_of_false (by simp) ?_
    rintro (h | h)
    · exact h1 h
    · exact h2 ⟨h.1, h.2⟩

/-- C1: a target whose notified flag is true at snapshot time is skipped
(line 660) before any price fetch: across any finite run of checker
cycles its stored entry never changes, no fetch event is attributed to
it, and no delivery attempt is addressed to it, for every sequence of
price samples and delivery outcomes. -/
theorem c1_notified_excluded (cycles : List (Oracle × Dispatcher)) (db : Db)
    (u s : String) (data : TargetData) (hg : GoodDb db)
    (he : dbEntry db u s = some data) (hn : data.notified = true) :
    dbEntry (run_cycles cycles db).db u s = some data ∧
    (u, s) ∉ (run_cycles cycles db).fetches ∧
    (run_cycles cycles db).deliveries.filter (forTarget u s) = [] := by
  induction cycles generalizing db with
  | nil =>
    refine ⟨he, ?_, rfl⟩
    simp [run_cycles]
  | cons c rest ih =>
    have hfire : firesEntry c.1 (s, data) = false := by
      simp [firesEntry, hn]
    have h1 : dbEntry (run_cycle c.1 c.2 db).db u s = some data := by
      rw [dbEntry_run_cycle c.1 c.2 db u s hg, he]
      simp [hfire]
    have hg2 : GoodDb (run_cycle c.1 c.2 db).db := goodDb_run_cycle c.1 c.2 db hg
    obtain ⟨ih1, ih2, ih3⟩ := ih (run_cycle c.1 c.2 db).db hg2 h1
    refine ⟨ih1, ?_, ?_⟩
    · show (u, s) ∉ (run_cycle c.1 c.2 db).fetches ++
        (run_cycles rest (run_cycle c.1 c.2 db).db).fetches
      intro hmem
      rcases List.mem_append.1 hmem with hm | hm
      · exact cycle_no_fetch c.1 c.2 db u s data hg he hn hm
      · exact ih2 hm
    · show ((run_cycle c.1 c.2 db).deliveries ++
        (run_cycles rest (run_cycle c.1 c.2 db).db).deliveries).filter
          (forTarget u s) = []
      rw [List.filter_append, ih3,
        cycle_deliv_filter_nil c.1 c.2 db u s data hg he hfire]
      rfl

/-- C3: when a pending target's evaluation fires, the cycle makes
exactly one delivery attempt for it and commits the notified state
unconditionally.  The dispatcher outcome function `d` is universally
quantified and the committed state does not mention it, so a failed
delivery does not prevent, and a successful one is not required for,
the permanent transition. -/
theorem c3_fire_commit_unconditional (f : Oracle) (d : Dispatcher) (db : Db)
    (u s : String) (data : TargetData) (p : ℚ) (hg : GoodDb db)
    (he : dbEntry db u s = some data) (hn : data.notified = false)
    (hf : f s = some p)
    (hs : shouldNotify data.trigger_type p data.target = true) :
    dbEntry (run_cycle f d db).db u s = some (markNotified data) ∧
    (run_cycle f d db).deliveries.filter (forTarget u s) =
      [(⟨u, s, p, data.target⟩, d ⟨u, s, p, data.target⟩)] := by
  have hfire : firesEntry f (s, data) = true := by
    simp [firesEntry, hn, hf, hs]
  constructor
  · rw [dbEntry_run_cycle f d db u s hg, he]
    simp [hfire]
  · exact cycle_deliv_filter_singleton f d db u s data p hg he hn hf hs

/-- C4: an unavailable price sample (the fetch yields nothing) is a
Hold: the target's stored entry is unchanged, no delivery is attempted
for it, and the target was fetched this cycle and is fetched again in
the next cycle (the natural retry), for any next-cycle oracle and
dispatcher. -/
theorem c4_unavailable_is_hold (f : Oracle) (d : Dispatcher)
    (f2 : Oracle) (d2 : Dispatcher) (db : Db) (u s : String)
    (data : TargetData) (hg : GoodDb db) (he : dbEntry db u s = some data)
    (hn : data.notified = false) (hf : f s = none) :
    dbEntry (run_cycle f d db).db u s = some data ∧
    (run_cycle f d db).deliveries.filter (forTarget u s) = [] ∧
    (u, s) ∈ (run_cycle f d db).fetches ∧
    (u, s) ∈ (run_cycle f2 d2 (run_cycle f d db).db).fetches := by
  have hfire : firesEntry f (s, data) = false := by
    simp [firesEntry, hf]
  have h1 : dbEntry (run_cycle f d db).db u s = some data := by
    rw [dbEntry_run_cycle f d db u s hg, he]
    simp [hfire]
  exact ⟨h1, cycle_deliv_filter_nil f d db u s data hg he hfire,
    cycle_fetch_mem f d db u s data hg he hn,
    cycle_fetch_mem f2 d2 _ u s data (goodDb_run_cycle f d db hg) h1 hn⟩

/-- C10: a target whose trigger direction is neither "below" nor
"above" never fires: the decision is Hold for every price, its stored
entry is unchanged by a cycle and no delivery is attempted for it, for
every oracle and dispatcher. -/
theorem c10_unknown_direction_holds (f : Oracle) (d : Dispatcher) (db : Db)
    (u s : String) (data : TargetData) (price : ℚ) (hg : GoodDb db)
    (he : dbEntry db u s = some data)
    (hb : data.trigger_type ≠ "below") (ha : data.trigger_type ≠ "above") :
    shouldNotify data.trigger_type price data.target = false ∧
    dbEntry (run_cycle f d db).db u s = some data ∧
    (run_cycle f d db).deliveries.filter (forTarget u s) = [] := by
  have hsn : ∀ q : ℚ, shouldNotify data.trigger_type q data.target = false := by
    intro q
    unfold shouldNotify
    split_ifs with h1 h2
    · exact absurd h1.1 hb
    · exact absurd h2.1 ha
    · rfl
  have hfire : firesEntry f (s, data) = false := by
    cases hnn : data.notified with
    | true => simp [firesEntry, hnn]
    | false =>
      cases hfs : f s with
      | none => simp [firesEntry, hnn, hfs]
      | some q => simp [firesEntry, hnn, hfs, hsn q]
  refine ⟨hsn price, ?_, cycle_deliv_filter_nil f d db u s data hg he hfire⟩
  rw [dbEntry_run_cycle f d db u s hg, he]
  simp [hfire]

/-- C7: per-item failure isolation.  Delivery outcomes never affect the
cycle: for any two dispatchers the database, the fetch schedule and the
attempted messages coincide, so a delivery error is absorbed.  Each
target's resulting state is determined by its own entry and the fetch
outcome of its own symbol alone (`firesEntry`, which is false when the
fetch yields nothing, making a fetch error a Hold for that item only).
And the fetch schedule covers every non-notified snapshot entry
whatever the per-item outcomes, so every other target is still
processed and the loop reaches the next cycle. -/
theorem c7_failure_isolation (f : Oracle) (d1 d2 : Dispatcher) (db : Db)
    (u s : String) (data : TargetData) (hg : GoodDb db)
    (he : dbEntry db u s = some data) :
    (run_cycle f d1 db).db = (run_cycle f d2 db).db ∧
    (run_cycle f d1 db).fetches = (run_cycle f d2 db).fetches ∧
    (run_cycle f d1 db).deliveries.map Prod.fst =
      (run_cycle f d2 db).deliveries.map Prod.fst ∧
    dbEntry (run_cycle f d1 db).db u s =
      some (if firesEntry f (s, data) then markNotified data else data) ∧
    (run_cycle f d1 db).fetches =
      db.flatMap
        (fun q => (q.2.filter (fun e => !e.2.notified)).map (fun e => (q.1, e.1))) := by
  obtain ⟨hdb, hfet, hdel⟩ := run_cycle_dispatcher_irrelevant f d1 d2 db hg
  refine ⟨hdb, hfet, hdel, ?_, ?_⟩
  · rw [dbEntry_run_cycle f d1 db u s hg, he]
    rfl
  · rw [run_cycle_eq f d1 db hg]
    simp only []
    have hfe : fetchesOf = fun q : String × Targets =>
        (q.2.filter (fun e => !e.2.notified)).map (fun e => (q.1, e.1)) := by
      funext q
      unfold fetchesOf
      exact stepFetches_flatMap_eq q.1 q.2
    rw [hfe]

/-- Concrete state for the C6 scenario: two users watching the same
symbol, both pending. -/
def dbC6 : Db :=
  [("A", [("MSFT", ⟨300, "below", false⟩)]),
   ("B", [("MSFT", ⟨310, "below", false⟩)])]

def fC6 : Oracle := fun _ => some 299

def dC6 : Dispatcher := fun _ => true

/-- C6 counterexample: with two users watching MSFT, one cycle issues
two fetch events for the single distinct symbol (one per target), not
one shared fetch; both targets still fire, with two delivery
attempts. -/
theorem c6_counterexample :
    (run_cycle fC6 dC6 dbC6).fetches = [("A", "MSFT"), ("B", "MSFT")] ∧
    ((run_cycle fC6 dC6 dbC6).fetches.filter (fun x => x.2 == "MSFT")).length = 2 ∧
    (run_cycle fC6 dC6 dbC6).deliveries.length = 2 := by
  exact ⟨rfl, rfl, rfl⟩

/-- C6 amended: within one cycle the checker issues one fetch per
non-notified snapshotted target, in snapshot order — fetches are
per-target, not deduplicated by symbol — so two users watching the same
symbol cause two separate fetches, each target being evaluated against
its own fetch's result and firing independently. -/
theorem c6_amended_per_target_fetch (f : Oracle) (d : Dispatcher) (db : Db)
    (hg : GoodDb db) :
    (run_cycle f d db).fetches =
      db.flatMap
        (fun q => (q.2.filter (fun e => !e.2.notified)).map (fun e => (q.1, e.1))) := by
  rw [run_cycle_eq f d db hg]
  simp only []
  have hfe : fetchesOf = fun q : String × Targets =>
      (q.2.filter (fun e => !e.2.notified)).map (fun e => (q.1, e.1)) := by
    funext q
    unfold fetchesOf
    exact stepFetches_flatMap_eq q.1 q.2
  rw [hfe]

/-- Concrete state for the C5 scenario. -/
def dbC5 : Db := [("alice", [("AAPL", ⟨150, "below", false⟩)])]

/-- The checker's in-hand copy of alice's targets, read (lines 647, 654)
before the interleaved delete. -/
def staleC5 : Targets := [("AAPL", ⟨150, "below", false⟩)]

def fC5 : Oracle := fun _ => some 149

def dC5 : Dispatcher := fun _ => true

/-- C5 counterexample: a target deleted between the checker's read and
its fire commit is written back.  The delete succeeds and removes the
entry; the checker's per-target step (lines 655-682), run with its
stale snapshot against the post-delete store, then restores the entry
in the notified state — the commit wins, not the delete. -/
theorem c5_counterexample :
    (api_delete_target dbC5 "alice" (some "AAPL")).2 = true ∧
    dbEntry (api_delete_target dbC5 "alice" (some "AAPL")).1 "alice" "AAPL" = none ∧
    dbEntry
      ((checkTarget fC5 dC5 "alice"
        (staleC5, ⟨(api_delete_target dbC5 "alice" (some "AAPL")).1, [], []⟩)
        ("AAPL", ⟨150, "below", false⟩)).2).db
      "alice" "AAPL" = some ⟨150, "below", true⟩ := by
  refine ⟨by decide, by decide, by decide⟩

/-- C5 amended: the fire commit of lines 681-682 is not
conflict-checked: it overwrites the user's store binding with the
checker's stale in-hand data, so whatever a concurrent
`api_delete_target` removed after the snapshot read, the fired symbol
is written back in the notified state — the commit wins over the
delete (no exception arises on this path; only the resurrection
violates the claim). -/
theorem c5_amended_stale_commit (db : Db) (u s : String) (stale : Targets)
    (data : TargetData) (req : Option String) :
    dbEntry
      (aset (api_delete_target db u req).1 u (fire_commit stale s data)) u s =
      some (markNotified data) := by
  unfold dbEntry fire_commit
  rw [alookup_aset_self]
  simp [alookup_aset_self]

/-- Successful-parse behaviour of the target-creation endpoint
(lines 567-586). -/
theorem api_set_target_some (db : Db) (u : String) (req : SetTargetRequest)
    (ts : Targets) (p : ℚ) (hu : alookup db u = some ts)
    (hp : req.target_price = some p) :
    api_set_target db u req =
      some (aset db u (aset ts (upper (req.symbol.getD ""))
        ⟨p, req.trigger_type.getD "below", false⟩)) := by
  unfold api_set_target
  rw [hp, hu]

/-- Concrete state for the C8 counterexample. -/
def dbC8 : Db := [("alice", [])]

/-- A request with an empty symbol and a negative price. -/
def reqC8 : SetTargetRequest := ⟨some "", some (-5), some "below"⟩

/-- C8 counterexample: the endpoint accepts a request whose symbol is
empty and whose threshold price is negative: the stored target violates
both data-model constraints (non-empty symbol, positive price), so such
inputs are not rejected. -/
theorem c8_counterexample :
    (api_set_target dbC8 "alice" reqC8).isSome = true ∧
    ((api_set_target dbC8 "alice" reqC8).bind
      (fun db2 => dbEntry db2 "alice" "")) = some ⟨-5, "below", false⟩ ∧
    (-5 : ℚ) < 0 ∧ ("" : String).length = 0 := by
  refine ⟨by decide, by decide, by decide, rfl⟩

/-- C8 amended: the endpoint rejects exactly the requests whose price
fails to parse as a number; any parsed price — zero or negative
included — is accepted, and the stored entry is keyed by the uppercased
(possibly empty) symbol, with the parsed price, the requested or
default direction, and notified reset to false. -/
theorem c8_amended_validation (db : Db) (u : String) (req : SetTargetRequest)
    (ts : Targets) (p : ℚ) (hu : alookup db u = some ts)
    (hp : req.target_price = some p) :
    api_set_target db u req =
      some (aset db u (aset ts (upper (req.symbol.getD ""))
        ⟨p, req.trigger_type.getD "below", false⟩)) ∧
    api_set_target db u ⟨req.symbol, none, req.trigger_type⟩ = none := by
  exact ⟨api_set_target_some db u req ts p hu hp, rfl⟩

/-- C9: setting a target for a symbol the user already has a target on
— including one that has already fired — overwrites the old entry
entirely and stores a fresh entry with notified reset to false,
re-arming the alert. -/
theorem c9_overwrite_rearms (db : Db) (u : String) (req : SetTargetRequest)
    (ts : Targets) (p : ℚ) (old : TargetData) (hu : alookup db u = some ts)
    (hp : req.target_price = some p)
    (hprev : alookup ts (upper (req.symbol.getD "")) = some old) :
    (api_set_target db u req).bind
      (fun db2 => dbEntry db2 u (upper (req.symbol.getD ""))) =
      some ⟨p, req.trigger_type.getD "below", false⟩ := by
  rw [api_set_target_some db u req ts p hu hp]
  unfold dbEntry
  rw [Option.some_bind, alookup_aset_self]
  simp [alookup_aset_self]

/-! ### Concrete witnesses -/

def dbW1 : Db := [("alice", [("AAPL", ⟨150, "below", true⟩)])]

def fW1 : Oracle := fun _ => some 100

def dW1 : Dispatcher := fun _ => true

/-- Witness for C1 at a concrete state: an already-notified AAPL target
survives two cycles of a crossing price untouched, unfetched and
undelivered. -/
theorem c1_witness :
    GoodDb dbW1 ∧
    dbEntry dbW1 "alice" "AAPL" = some ⟨150, "below", true⟩ ∧
    (⟨150, "below", true⟩ : TargetData).notified = true ∧
    (dbEntry (run_cycles [(fW1, dW1), (fW1, dW1)] dbW1).db "alice" "AAPL" =
      some ⟨150, "below", true⟩ ∧
     ("alice", "AAPL") ∉ (run_cycles [(fW1, dW1), (fW1, dW1)] dbW1).fetches ∧
     (run_cycles [(fW1, dW1), (fW1, dW1)] dbW1).deliveries.filter
       (forTarget "alice" "AAPL") = []) := by
  exact ⟨by decide, by decide, rfl,
    c1_notified_excluded [(fW1, dW1), (fW1, dW1)] dbW1 "alice" "AAPL"
      ⟨150, "below", true⟩ (by decide) (by decide) rfl⟩

def dbW3 : Db := [("bob", [("TSLA", ⟨900, "above", false⟩)])]

def fW3 : Oracle := fun _ => some 900

def dW3 : Dispatcher := fun _ => false

/-- Witness for C3 at a concrete state: a boundary-price fire against a
failing dispatcher still commits the notified state and logs exactly
one attempt. -/
theorem c3_witness :
    GoodDb dbW3 ∧
    dbEntry dbW3 "bob" "TSLA" = some ⟨900, "above", false⟩ ∧
    fW3 "TSLA" = some 900 ∧
    shouldNotify "above" 900 900 = true ∧
    (dbEntry (run_cycle fW3 dW3 dbW3).db "bob" "TSLA" =
      some (markNotified ⟨900, "above", false⟩) ∧
     (run_cycle fW3 dW3 dbW3).deliveries.filter (forTarget "bob" "TSLA") =
       [(⟨"bob", "TSLA", 900, 900⟩, dW3 ⟨"bob", "TSLA", 900, 900⟩)]) := by
  exact ⟨by decide, by decide, rfl, by decide,
    c3_fire_commit_unconditional fW3 dW3 dbW3 "bob" "TSLA"
      ⟨900, "above", false⟩ 900 (by decide) (by decide) rfl rfl (by decide)⟩

def dbW4 : Db := [("carol", [("XYZ", ⟨10, "below", false⟩)])]

def fW4 : Oracle := fun _ => none

def dW4 : Dispatcher := fun _ => true

/-- Witness for C4 at a concrete state: an unavailable XYZ sample holds
the target, delivers nothing, and the target is fetched this cycle and
the next. -/
theorem c4_witness :
    GoodDb dbW4 ∧
    dbEntry dbW4 "carol" "XYZ" = some ⟨10, "below", false⟩ ∧
    fW4 "XYZ" = none ∧
    (dbEntry (run_cycle fW4 dW4 dbW4).db "carol" "XYZ" =
      some ⟨10, "below", false⟩ ∧
     (run_cycle fW4 dW4 dbW4).deliveries.filter (forTarget "carol" "XYZ") = [] ∧
     ("carol", "XYZ") ∈ (run_cycle fW4 dW4 dbW4).fetches ∧
     ("carol", "XYZ") ∈ (run_cycle fW4 dW4 (run_cycle fW4 dW4 dbW4).db).fetches) := by
  exact ⟨by decide, by decide, rfl,
    c4_unavailable_is_hold fW4 dW4 fW4 dW4 dbW4 "carol" "XYZ"
      ⟨10, "below", false⟩ (by decide) (by decide) rfl rfl⟩

/-- Witness for the amended C6 at the two-user scenario. -/
theorem c6_amended_witness :
    GoodDb dbC6 ∧
    (run_cycle fC6 dC6 dbC6).fetches =
      dbC6.flatMap
        (fun q => (q.2.filter (fun e => !e.2.notified)).map (fun e => (q.1, e.1))) :=
  ⟨by decide, c6_amended_per_target_fetch fC6 dC6 dbC6 (by decide)⟩

def dbW7 : Db := [("dave", [("NVDA", ⟨500, "below", false⟩)])]

def fW7 : Oracle := fun _ => some 450

def dW7a : Dispatcher := fun _ => true

def dW7b : Dispatcher := fun _ => false

/-- Witness for C7 at a concrete state: a succeeding and a failing
dispatcher produce the same store, fetch schedule and attempted
messages, and the target's outcome is its own firing function. -/
theorem c7_witness :
    GoodDb dbW7 ∧
    dbEntry dbW7 "dave" "NVDA" = some ⟨500, "below", false⟩ ∧
    ((run_cycle fW7 dW7a dbW7).db = (run_cycle fW7 dW7b dbW7).db ∧
     (run_cycle fW7 dW7a dbW7).fetches = (run_cycle fW7 dW7b dbW7).fetches ∧
     (run_cycle fW7 dW7a dbW7).deliveries.map Prod.fst =
       (run_cycle fW7 dW7b dbW7).deliveries.map Prod.fst ∧
     dbEntry (run_cycle fW7 dW7a dbW7).db "dave" "NVDA" =
       some (if firesEntry fW7 ("NVDA", ⟨500, "below", false⟩) then
         markNotified ⟨500, "below", false⟩ else ⟨500, "below", false⟩) ∧
     (run_cycle fW7 dW7a dbW7).fetches =
       dbW7.flatMap
         (fun q => (q.2.filter (fun e => !e.2.notified)).map (fun e => (q.1, e.1)))) :=
  ⟨by decide, by decide,
    c7_failure_isolation fW7 dW7a dW7b dbW7 "dave" "NVDA" ⟨500, "below", false⟩
      (by decide) (by decide)⟩

def reqW8 : SetTargetRequest := ⟨some "pltr", some 0, none⟩

/-- Witness for the amended C8: a zero price with a lowercase symbol is
accepted and stored uppercased with the default direction, while the
unparsable-price variant of the same request is rejected. -/
theorem c8_amended_witness :
    alookup dbC8 "alice" = some [] ∧
    reqW8.target_price = some 0 ∧
    (api_set_target dbC8 "alice" reqW8 =
      some (aset dbC8 "alice" (aset [] (upper (reqW8.symbol.getD ""))
        ⟨0, reqW8.trigger_type.getD "below", false⟩)) ∧
     api_set_target dbC8 "alice" ⟨reqW8.symbol, none, reqW8.trigger_type⟩ = none) :=
  ⟨by decide, rfl, c8_amended_validation dbC8 "alice" reqW8 [] 0 (by decide) rfl⟩

def tsW9 : Targets := [("MSFT", ⟨300, "below", true⟩)]

def dbW9 : Db := [("erin", tsW9)]

def reqW9 : SetTargetRequest := ⟨some "msft", some 310, some "above"⟩

/-- Witness for C9: re-creating an already-fired MSFT alert stores a
fresh pending entry with the new price and direction. -/
theorem c9_witness :
    alookup dbW9 "erin" = some tsW9 ∧
    reqW9.target_price = some 310 ∧
    alookup tsW9 (upper (reqW9.symbol.getD "")) = some ⟨300, "below", true⟩ ∧
    (api_set_target dbW9 "erin" reqW9).bind
      (fun db2 => dbEntry db2 "erin" (upper (reqW9.symbol.getD ""))) =
      some ⟨310, reqW9.trigger_type.getD "below", false⟩ :=
  ⟨by decide, rfl, by decide,
    c9_overwrite_rearms dbW9 "erin" reqW9 tsW9 310
      ⟨300, "below", true⟩ (by decide) rfl (by decide)⟩

def dbW10 : Db := [("frank", [("GME", ⟨20, "sideways", false⟩)])]

def fW10 : Oracle := fun _ => some 5

def dW10 : Dispatcher := fun _ => true

/-- Witness for C10: a "sideways" direction never fires even on a deep
price, the entry is unchanged and nothing is delivered. -/
theorem c10_witness :
    GoodDb dbW10 ∧
    dbEntry dbW10 "frank" "GME" = some ⟨20, "sideways", false⟩ ∧
    ("sideways" : String) ≠ "below" ∧
    ("sideways" : String) ≠ "above" ∧
    (shouldNotify "sideways" 5 20 = false ∧
     dbEntry (run_cycle fW10 dW10 dbW10).db "frank" "GME" =
       some ⟨20, "sideways", false⟩ ∧
     (run_cycle fW10 dW10 dbW10).deliveries.filter (forTarget "frank" "GME") = []) := by
  exact ⟨by decide, by decide, by decide, by decide,
    c10_unknown_direction_holds fW10 dW10 dbW10 "frank" "GME"
      ⟨20, "sideways", false⟩ 5 (by decide) (by decide) (by decide) (by decide)⟩
